import Mathlib

/-!
Shallow embedding of the tool-calling control loop of
`Projects/1_cli_agent/langgraph_task_agent.py` (with its SQLite helpers in
`Projects/1_cli_agent/db_tools.py`) and of the Drafter document agent in
`agents_vaibhav_mehra/Drafter.py`, together with theorems settling the
specification claims about them.

Conventions used throughout:
* Python exceptions are modelled with `Except String`: a raised exception is
  `.error e`, normal return is `.ok v`.
* The external LLM clients (`model_with_tools.invoke`, `model.invoke`) are
  opaque oracles of type `List Message → Except String Message`.
* Tool handlers are opaque: a registered tool carries two behaviours, one for
  `tool_callable.invoke(args)` and one for the direct call
  `tool_callable(**args)`, each of which may raise.
* Python strings are Lean `String`s; `str.lower()` is mapping `Char.toLower`
  over the characters, and the `in` substring test is an explicit
  contiguous-sublist search.
-/

/-- Python list/character-level helper: `needle` is a prefix of `hay`. -/
def isPrefixList : List Char → List Char → Bool
  | [], _ => true
  | _ :: _, [] => false
  | a :: as, b :: bs => a == b && isPrefixList as bs

/-- Python `needle in hay` substring test on character lists. -/
def hasSubList (needle : List Char) : List Char → Bool
  | [] => needle.isEmpty
  | b :: bs => isPrefixList needle (b :: bs) || hasSubList needle bs

/-- Python `needle in hay` on strings. -/
def strContains (hay needle : String) : Bool :=
  hasSubList needle.data hay.data

/-- Python `s.lower()` (ASCII contents only in this repository). -/
def lowerStr (s : String) : String :=
  ⟨s.data.map Char.toLower⟩

namespace TA

/-- Role of a LangChain message (`SystemMessage`, `HumanMessage`,
`AIMessage`, `ToolMessage`). -/
inductive Role where
  | system
  | user
  | assistant
  | tool
deriving DecidableEq, Repr

/-- One entry of an `AIMessage.tool_calls` list: a dict with keys
`id`, `name`, `args`. -/
structure ToolCall where
  id : String
  name : String
  args : List (String × String)
deriving DecidableEq, Repr

/-- A LangChain message.  `tool_calls` is `[]` for non-assistant messages,
mirroring `getattr(msg, "tool_calls", [])`; `tool_call_id` is set only on
tool-result messages. -/
structure Message where
  role : Role
  content : String
  tool_calls : List ToolCall := []
  tool_call_id : Option String := none
deriving DecidableEq, Repr

/-- `ToolMessage(content=obs, tool_call_id=tool_call.get("id"))`. -/
def mkToolMessage (obs : String) (callId : String) : Message :=
  { role := Role.tool, content := obs, tool_calls := [], tool_call_id := some callId }

/-- The `MessagesState` TypedDict: `messages` (merged with `operator.add`)
and `llm_calls`. -/
structure LoopState where
  messages : List Message
  llm_calls : Nat
deriving DecidableEq, Repr

/-- A state delta returned by a graph node.  `messages` is merged by
appending (the `operator.add` annotation); `llm_calls` has no reducer, so a
node that returns it overwrites the old value and a node that omits it
(`none`) leaves it unchanged. -/
structure Update where
  messages : List Message
  llm_calls : Option Nat := none
deriving DecidableEq, Repr

/-- LangGraph channel merge of a node's returned delta into the state. -/
def applyUpdate (s : LoopState) (u : Update) : LoopState :=
  { messages := s.messages ++ u.messages
    llm_calls := match u.llm_calls with
      | some n => n
      | none => s.llm_calls }

/-- A registered tool: the behaviour of `tool_callable.invoke(args)` and of
the direct fallback call `tool_callable(**args)`.  Each may raise. -/
structure ToolImpl where
  invoke : List (String × String) → Except String String
  call : List (String × String) → Except String String

/-- The names registered in `TOOLS_BY_NAME` (`{t.name: t for t in TOOLS}`). -/
def toolNames : List String :=
  ["add_task", "list_tasks", "complete_task", "delete_task", "search_tasks"]

/-- `TOOLS_BY_NAME`, parameterised by the (environment-dependent) behaviour
of the five registered handlers: lookup returns a tool exactly for the five
registered names. -/
def TOOLS_BY_NAME (impls : String → ToolImpl) : String → Option ToolImpl :=
  fun n => if n ∈ toolNames then some (impls n) else none

/-- `json.dumps({"error": f"Unknown tool {name}"})`. -/
def unknownToolPayload (name : String) : String :=
  "\x7b\"error\": \"Unknown tool " ++ name ++ "\"\x7d"

/-- One iteration of the `for tool_call in ...` body of `tool_node`:
unknown names yield the error-payload observation; for a registered tool,
`invoke` is tried and, if it raises, the direct call is tried, whose
exception (if any) propagates. -/
def execOne (reg : String → Option ToolImpl) (tc : ToolCall) : Except String Message :=
  match reg tc.name with
  | none => Except.ok (mkToolMessage (unknownToolPayload tc.name) tc.id)
  | some t =>
    match t.invoke tc.args with
    | Except.ok obs => Except.ok (mkToolMessage obs tc.id)
    | Except.error _ =>
      match t.call tc.args with
      | Except.ok obs => Except.ok (mkToolMessage obs tc.id)
      | Except.error e => Except.error e

/-- The whole `for` loop of `tool_node`: processed in order; an uncaught
exception mid-loop aborts the loop (partial results are discarded). -/
def execAll (reg : String → Option ToolImpl) : List ToolCall → Except String (List Message)
  | [] => Except.ok []
  | tc :: rest =>
    match execOne reg tc with
    | Except.error e => Except.error e
    | Except.ok m =>
      match execAll reg rest with
      | Except.error e => Except.error e
      | Except.ok ms => Except.ok (m :: ms)

/-- `tool_node(state)`: reads `state["messages"][-1]` (raising on an empty
history), executes its `tool_calls` and returns `{"messages": results}`. -/
def tool_node (reg : String → Option ToolImpl) (state : LoopState) : Except String Update :=
  match state.messages.getLast? with
  | none => Except.error "IndexError: list index out of range"
  | some last =>
    match execAll reg last.tool_calls with
    | Except.error e => Except.error e
    | Except.ok results => Except.ok { messages := results, llm_calls := none }

/-- The dedented system prompt built inside `llm_call`. -/
def systemPrompt : String :=
  "\nYou are a task-agent assistant. Use the available tools to manage tasks when appropriate:\nadd_task, list_tasks, complete_task, delete_task, search_tasks.\nIf you want to perform an action, call a tool with JSON-serializable args.\nOtherwise return a normal assistant reply.\n"

/-- The `SystemMessage` prepended on every gateway call. -/
def systemMessage : Message :=
  { role := Role.system, content := systemPrompt }

/-- `llm_call(state)`: tries `model_with_tools.invoke([system] + incoming)`
and falls back to `model.invoke([system] + incoming)` if that raises; the
returned delta appends only the new message and overwrites `llm_calls` with
`state.get("llm_calls", 0) + 1`. -/
def llm_call (bound raw : List Message → Except String Message) (state : LoopState) :
    Except String Update :=
  let incoming := state.messages
  match bound (systemMessage :: incoming) with
  | Except.ok m => Except.ok { messages := [m], llm_calls := some (state.llm_calls + 1) }
  | Except.error _ =>
    match raw (systemMessage :: incoming) with
    | Except.ok m => Except.ok { messages := [m], llm_calls := some (state.llm_calls + 1) }
    | Except.error e => Except.error e

/-- Result of `should_continue`: either the string name of a node or the
`END` sentinel. -/
inductive Route where
  | toNode (name : String)
  | toEnd
deriving DecidableEq, Repr

/-- `should_continue(state)`: `"tool_node"` when the last message exists and
has a truthy (non-empty) `tool_calls`, else `END`. -/
def should_continue (state : LoopState) : Route :=
  match state.messages.getLast? with
  | some last => if last.tool_calls.isEmpty then Route.toEnd else Route.toNode "tool_node"
  | none => Route.toEnd

/-- The nodes of the compiled `StateGraph` together with the terminal `END`
pseudo-node. -/
inductive Node where
  | llm_call
  | tool_node
  | halted
deriving DecidableEq, Repr

/-- Resolution of a `should_continue` result against the conditional edge
list `["tool_node", END]` of `add_conditional_edges`. -/
def resolveRoute : Route → Node
  | Route.toNode n => if n = "tool_node" then Node.tool_node else Node.halted
  | Route.toEnd => Node.halted

/-- One superstep of the compiled graph: run the current node on the state,
merge its delta, and follow the graph's edges (`llm_call` routed by
`should_continue`; `tool_node → llm_call` unconditionally).  `halted` is
absorbing. -/
def step (bound raw : List Message → Except String Message)
    (reg : String → Option ToolImpl) :
    Node × LoopState → Except String (Node × LoopState)
  | (Node.llm_call, s) =>
    match llm_call bound raw s with
    | Except.error e => Except.error e
    | Except.ok u =>
      let s' := applyUpdate s u
      Except.ok (resolveRoute (should_continue s'), s')
  | (Node.tool_node, s) =>
    match tool_node reg s with
    | Except.error e => Except.error e
    | Except.ok u => Except.ok (Node.llm_call, applyUpdate s u)
  | (Node.halted, s) => Except.ok (Node.halted, s)

/-- `n` supersteps of the compiled graph. -/
def iterate (bound raw : List Message → Except String Message)
    (reg : String → Option ToolImpl) :
    Nat → Node × LoopState → Except String (Node × LoopState)
  | 0, x => Except.ok x
  | n + 1, x =>
    match step bound raw reg x with
    | Except.error e => Except.error e
    | Except.ok y => iterate bound raw reg n y

end TA

namespace DB

/-- One row of the `tasks` table (the columns touched by the claims; `id`
is the `INTEGER PRIMARY KEY`). -/
structure Row where
  id : Int
  title : String
  description : String
  category : String
  priority : String
  due_date : Option String
  completed : Int
  created_at : String
  updated_at : String
deriving DecidableEq, Repr

/-- `db_tools.complete_task`: `UPDATE tasks SET completed = 1, updated_at = ?
WHERE id = ?`, returning the cursor's rowcount (number of matched rows)
alongside the new table. -/
def complete_task (table : List Row) (task_id : Int) (now : String) : List Row × Nat :=
  (table.map (fun r => if r.id = task_id then { r with completed := 1, updated_at := now } else r),
   (table.filter (fun r => r.id = task_id)).length)

/-- `db_tools.delete_task`: `DELETE FROM tasks WHERE id = ?`, returning the
rowcount alongside the new table. -/
def delete_task (table : List Row) (task_id : Int) : List Row × Nat :=
  (table.filter (fun r => ¬ r.id = task_id),
   (table.filter (fun r => r.id = task_id)).length)

/-- `json.dumps({"msg": ..., "updated": bool(updated)})` produced by the
`complete_task` tool wrapper. -/
def completeTaskJson (task_id : Int) (updated : Bool) : String :=
  "\x7b\"msg\": \"" ++
    (if updated then "Marked task " ++ toString task_id ++ " completed."
     else "Task " ++ toString task_id ++ " not found.") ++
    "\", \"updated\": " ++ (if updated then "true" else "false") ++ "\x7d"

/-- `json.dumps({"msg": ..., "deleted": bool(deleted)})` produced by the
`delete_task` tool wrapper. -/
def deleteTaskJson (task_id : Int) (deleted : Bool) : String :=
  "\x7b\"msg\": \"" ++
    (if deleted then "Deleted task " ++ toString task_id ++ "."
     else "Task " ++ toString task_id ++ " not found.") ++
    "\", \"deleted\": " ++ (if deleted then "true" else "false") ++ "\x7d"

/-- The `complete_task` tool of the agent: runs the DB update and renders the
JSON observation; the flag is `bool(updated)`, i.e. rowcount ≠ 0. -/
def completeTaskTool (table : List Row) (task_id : Int) (now : String) : List Row × String :=
  let p := complete_task table task_id now
  (p.1, completeTaskJson task_id (decide (p.2 ≠ 0)))

/-- The `delete_task` tool of the agent: runs the DB delete and renders the
JSON observation; the flag is `bool(deleted)`, i.e. rowcount ≠ 0. -/
def deleteTaskTool (table : List Row) (task_id : Int) : List Row × String :=
  let p := delete_task table task_id
  (p.1, deleteTaskJson task_id (decide (p.2 ≠ 0)))

end DB

namespace Drafter

/-- Role of a message in the Drafter agent (LangChain message classes). -/
inductive DRole where
  | system
  | human
  | ai
  | tool
deriving DecidableEq, Repr

/-- A message as inspected by Drafter's `should_continue`: only its class
and its `content` matter. -/
structure DMessage where
  role : DRole
  content : String
deriving DecidableEq, Repr

/-- The confirmation string returned by the `update` tool after overwriting
the global `document_content` with `content`. -/
def updateMessage (content : String) : String :=
  "Document has been updated successfully! The current content is:\n" ++ content

/-- The `update` tool: overwrites the global document and returns the
confirmation (its result becomes a `ToolMessage`). -/
def update (document_content content : String) : String × String :=
  (content, updateMessage content)

/-- Filename normalisation inside the `save` tool. -/
def normalizeFilename (filename : String) : String :=
  if filename.endsWith ".txt" then filename else filename ++ ".txt"

/-- The success message returned by the `save` tool. -/
def saveSuccessMessage (filename : String) : String :=
  "Document has been saved successfully to \x27" ++ normalizeFilename filename ++ "\x27."

/-- The error message returned by the `save` tool when the write raises. -/
def saveErrorMessage (e : String) : String :=
  "Error saving document: " ++ e

/-- The test applied to each message by `should_continue`'s loop body:
a `ToolMessage` whose lowercased content contains both "saved" and
"document". -/
def isSaveConfirmation (m : DMessage) : Bool :=
  decide (m.role = DRole.tool) &&
    strContains (lowerStr m.content) "saved" &&
    strContains (lowerStr m.content) "document"

/-- Drafter's `should_continue`: `"continue"` on an empty history, else
scan the messages latest-first and return `"end"` on the first save
confirmation, `"continue"` if none is found. -/
def should_continue (messages : List DMessage) : String :=
  if messages.isEmpty then "continue"
  else if messages.reverse.any isSaveConfirmation then "end" else "continue"

/-- The nodes of the Drafter graph plus the terminal `END`. -/
inductive DNode where
  | agent
  | tools
  | halt
deriving DecidableEq, Repr

/-- The path map `{"continue": "agent", "end": END}` of
`add_conditional_edges("tools", should_continue, ...)`. -/
def edgeMap (k : String) : Option DNode :=
  if k = "continue" then some DNode.agent
  else if k = "end" then some DNode.halt
  else none

/-- Where the graph goes after the `tools` node on history `messages`. -/
def routeAfterTools (messages : List DMessage) : Option DNode :=
  edgeMap (should_continue messages)

end Drafter

/-! ### Concrete instances used to exercise the definitions -/

/-- A first user turn, as built in `run_repl`. -/
def userMsg : TA.Message :=
  { role := TA.Role.user, content := "hello" }

/-- A plain assistant reply with no tool calls. -/
def plainAssistant : TA.Message :=
  { role := TA.Role.assistant, content := "done" }

/-- An LLM client that always answers `plainAssistant`. -/
def haltBound : List TA.Message → Except String TA.Message :=
  fun _ => Except.ok plainAssistant

/-- An LLM client whose call always raises (service unreachable). -/
def failBound : List TA.Message → Except String TA.Message :=
  fun _ => Except.error "ServiceUnavailable"

/-- A second failing LLM client, with a distinguishable exception. -/
def failRaw : List TA.Message → Except String TA.Message :=
  fun _ => Except.error "DeadlineExceeded"

/-- An initial loop state holding just the user message. -/
def s0 : TA.LoopState :=
  { messages := [userMsg], llm_calls := 0 }

/-- Tool behaviour in a healthy environment: `invoke` returns an empty task
list, the direct call raises (as a LangChain `StructuredTool` does when
called with keyword arguments). -/
def okImpls : String → TA.ToolImpl :=
  fun _ => { invoke := fun _ => Except.ok "\x7b\"tasks\": []\x7d",
             call := fun _ => Except.error "TypeError" }

/-- `TOOLS_BY_NAME` in the healthy environment. -/
def okReg : String → Option TA.ToolImpl :=
  TA.TOOLS_BY_NAME okImpls

/-- Tool behaviour in a broken environment: both `invoke` and the direct
fallback call raise. -/
def boomImpls : String → TA.ToolImpl :=
  fun _ => { invoke := fun _ => Except.error "sqlite3.OperationalError: database is locked",
             call := fun _ => Except.error "TypeError" }

/-- A request batch with one registered and one unregistered tool name. -/
def twoCalls : List TA.ToolCall :=
  [{ id := "call_1", name := "list_tasks", args := [] },
   { id := "call_2", name := "delete_row", args := [] }]

/-- An assistant message carrying `twoCalls`. -/
def asstTwo : TA.Message :=
  { role := TA.Role.assistant, content := "", tool_calls := twoCalls }

/-- A loop state whose last message is `asstTwo`. -/
def stTwo : TA.LoopState :=
  { messages := [userMsg, asstTwo], llm_calls := 1 }

/-- The observation for `call_1` in the healthy environment. -/
def resOne : TA.Message :=
  TA.mkToolMessage "\x7b\"tasks\": []\x7d" "call_1"

/-- The observation for the unregistered `delete_row` request. -/
def resTwo : TA.Message :=
  TA.mkToolMessage (TA.unknownToolPayload "delete_row") "call_2"

/-- A single request to the registered `add_task` tool. -/
def boomCall : TA.ToolCall :=
  { id := "call_9", name := "add_task", args := [("title", "x")] }

/-- An assistant message requesting only `boomCall`. -/
def boomAssistant : TA.Message :=
  { role := TA.Role.assistant, content := "", tool_calls := [boomCall] }

/-- A loop state whose last message is `boomAssistant`. -/
def boomState : TA.LoopState :=
  { messages := [userMsg, boomAssistant], llm_calls := 1 }

/-- A tool-call request used by the non-terminating model. -/
def loopToolCall : TA.ToolCall :=
  { id := "call_1", name := "list_tasks", args := [] }

/-- The assistant message the non-terminating model always produces. -/
def loopAssistant : TA.Message :=
  { role := TA.Role.assistant, content := "", tool_calls := [loopToolCall] }

/-- A tool-call-happy model: every generation requests another tool call. -/
def loopBound : List TA.Message → Except String TA.Message :=
  fun _ => Except.ok loopAssistant

/-- The observation produced for `loopToolCall` in the healthy
environment. -/
def loopResult : TA.Message :=
  TA.mkToolMessage "\x7b\"tasks\": []\x7d" "call_1"

/-- The message block appended to history by `n` model/tool rounds of the
non-terminating run. -/
def rep : Nat → List TA.Message
  | 0 => []
  | n + 1 => loopAssistant :: loopResult :: rep n

/-- A concrete pending task row. -/
def row1 : DB.Row :=
  { id := 1, title := "buy milk", description := "", category := "personal",
    priority := "medium", due_date := none, completed := 0,
    created_at := "2026-10-01T00:00:00", updated_at := "2026-10-01T00:00:00" }

/-- A second concrete task row. -/
def row2 : DB.Row :=
  { id := 2, title := "write report", description := "q3", category := "work",
    priority := "high", due_date := some "2026-10-20", completed := 0,
    created_at := "2026-10-02T00:00:00", updated_at := "2026-10-02T00:00:00" }

/-- Tool behaviour in a version-skew environment: `invoke` raises and the
direct fallback call succeeds. -/
def fbImpls : String → TA.ToolImpl :=
  fun _ => { invoke := fun _ => Except.error "ValidationError",
             call := fun _ => Except.ok "direct result" }

/-- `TOOLS_BY_NAME` in the version-skew environment. -/
def fbReg : String → Option TA.ToolImpl :=
  TA.TOOLS_BY_NAME fbImpls

/-- The observation for `call_1` in the version-skew environment. -/
def fbRes : TA.Message :=
  TA.mkToolMessage "direct result" "call_1"

/-! ## Helper lemmas -/

/-- Every observation the executor produces for a request is a tool-result
message tagged with that request's invocation id. -/
theorem ta_execOne_ok_shape {reg : String → Option TA.ToolImpl} {tc : TA.ToolCall}
    {m : TA.Message} (h : TA.execOne reg tc = Except.ok m) :
    m.role = TA.Role.tool ∧ m.tool_call_id = some tc.id := by
  unfold TA.execOne at h
  cases hr : reg tc.name with
  | none =>
    simp only [hr] at h
    injection h with h2
    subst h2
    exact ⟨rfl, rfl⟩
  | some t =>
    simp only [hr] at h
    cases hi : t.invoke tc.args with
    | ok obs =>
      rw [hi] at h
      injection h with h2
      subst h2
      exact ⟨rfl, rfl⟩
    | error e =>
      rw [hi] at h
      cases hc : t.call tc.args with
      | ok obs =>
        rw [hc] at h
        injection h with h2
        subst h2
        exact ⟨rfl, rfl⟩
      | error e2 =>
        rw [hc] at h
        exact Except.noConfusion h

/-- A successful executor run pairs requests with observations one-to-one,
in order. -/
theorem ta_execAll_ok_forall2 {reg : String → Option TA.ToolImpl} :
    ∀ {calls : List TA.ToolCall} {rs : List TA.Message},
      TA.execAll reg calls = Except.ok rs →
      List.Forall₂ (fun tc mm => TA.execOne reg tc = Except.ok mm) calls rs
  | [], rs, h => by
    injection h with h2
    subst h2
    exact List.Forall₂.nil
  | tc :: rest, rs, h => by
    unfold TA.execAll at h
    cases h1 : TA.execOne reg tc with
    | error e => rw [h1] at h; exact Except.noConfusion h
    | ok m =>
      rw [h1] at h
      cases h2 : TA.execAll reg rest with
      | error e => rw [h2] at h; exact Except.noConfusion h
      | ok ms =>
        rw [h2] at h
        injection h with h3
        subst h3
        exact List.Forall₂.cons h1 (ta_execAll_ok_forall2 h2)

/-- If every request in the batch executes without an uncaught exception,
the whole loop body completes. -/
theorem ta_execAll_ok_exists {reg : String → Option TA.ToolImpl} :
    ∀ {calls : List TA.ToolCall},
      (∀ tc ∈ calls, (TA.execOne reg tc).isOk = true) →
      ∃ rs, TA.execAll reg calls = Except.ok rs
  | [], _ => ⟨[], rfl⟩
  | tc :: rest, h => by
    have h1 : (TA.execOne reg tc).isOk = true := h tc (List.mem_cons_self tc rest)
    cases hx : TA.execOne reg tc with
    | error e => rw [hx] at h1; exact Bool.noConfusion h1
    | ok m =>
      obtain ⟨rs, hrs⟩ := ta_execAll_ok_exists (fun tc' htc' => h tc' (List.mem_cons_of_mem _ htc'))
      refine ⟨m :: rs, ?_⟩
      unfold TA.execAll
      rw [hx, hrs]

/-- Once `END` is reached the loop is over: no further superstep changes the
state and in particular no further Model Gateway call happens. -/
theorem ta_iterate_halted (bound raw : List TA.Message → Except String TA.Message)
    (reg : String → Option TA.ToolImpl) :
    ∀ (k : Nat) (s : TA.LoopState),
      TA.iterate bound raw reg k (TA.Node.halted, s) = Except.ok (TA.Node.halted, s)
  | 0, _ => rfl
  | k + 1, s => by
    unfold TA.iterate
    have hs : TA.step bound raw reg (TA.Node.halted, s) = Except.ok (TA.Node.halted, s) := rfl
    rw [hs]
    exact ta_iterate_halted bound raw reg k s

/-- Unfolding equation for a positive number of supersteps. -/
theorem ta_iterate_succ (bound raw : List TA.Message → Except String TA.Message)
    (reg : String → Option TA.ToolImpl) (n : Nat) (x : TA.Node × TA.LoopState) :
    TA.iterate bound raw reg (n + 1) x =
      match TA.step bound raw reg x with
      | Except.error e => Except.error e
      | Except.ok y => TA.iterate bound raw reg n y := rfl

/-- Supersteps compose: running `a + b` steps is running `b` steps and then
`a` more on the result. -/
theorem ta_iterate_add (bound raw : List TA.Message → Except String TA.Message)
    (reg : String → Option TA.ToolImpl) (a : Nat) :
    ∀ (b : Nat) (x : TA.Node × TA.LoopState),
      TA.iterate bound raw reg (a + b) x =
        match TA.iterate bound raw reg b x with
        | Except.error e => Except.error e
        | Except.ok y => TA.iterate bound raw reg a y
  | 0, x => rfl
  | b + 1, x => by
    show TA.iterate bound raw reg ((a + b) + 1) x = _
    rw [ta_iterate_succ bound raw reg (a + b) x, ta_iterate_succ bound raw reg b x]
    cases hs : TA.step bound raw reg x with
    | error e => rfl
    | ok y => exact ta_iterate_add bound raw reg a b y

/-- Every successful superstep only appends to the message history. -/
theorem ta_step_extends {bound raw : List TA.Message → Except String TA.Message}
    {reg : String → Option TA.ToolImpl} {x : TA.Node × TA.LoopState}
    {n2 : TA.Node} {s2 : TA.LoopState}
    (h : TA.step bound raw reg x = Except.ok (n2, s2)) :
    x.2.messages <+: s2.messages := by
  obtain ⟨nd, s⟩ := x
  cases nd with
  | llm_call =>
    simp only [TA.step] at h
    cases hc : TA.llm_call bound raw s with
    | error e => rw [hc] at h; exact Except.noConfusion h
    | ok u =>
      rw [hc] at h
      simp only [Except.ok.injEq, Prod.mk.injEq] at h
      obtain ⟨-, hs2⟩ := h
      subst hs2
      exact List.prefix_append s.messages u.messages
  | tool_node =>
    simp only [TA.step] at h
    cases hc : TA.tool_node reg s with
    | error e => rw [hc] at h; exact Except.noConfusion h
    | ok u =>
      rw [hc] at h
      simp only [Except.ok.injEq, Prod.mk.injEq] at h
      obtain ⟨-, hs2⟩ := h
      subst hs2
      exact List.prefix_append s.messages u.messages
  | halted =>
    simp only [TA.step, Except.ok.injEq, Prod.mk.injEq] at h
    obtain ⟨-, hs2⟩ := h
    subst hs2
    exact List.prefix_rfl

/-- A successful `llm_call` always returns a delta that appends exactly one
message — the reply of one of the two clients on the system-prefixed
history — and bumps the call counter. -/
theorem ta_llm_call_ok {bound raw : List TA.Message → Except String TA.Message}
    {s : TA.LoopState} {u : TA.Update} (h : TA.llm_call bound raw s = Except.ok u) :
    ∃ m, u = { messages := [m], llm_calls := some (s.llm_calls + 1) } ∧
      (bound (TA.systemMessage :: s.messages) = Except.ok m ∨
       raw (TA.systemMessage :: s.messages) = Except.ok m) := by
  unfold TA.llm_call at h
  cases hb : bound (TA.systemMessage :: s.messages) with
  | ok m =>
    simp only [hb] at h
    injection h with h2
    exact ⟨m, h2.symm, Or.inl rfl⟩
  | error e =>
    simp only [hb] at h
    cases hr : raw (TA.systemMessage :: s.messages) with
    | ok m =>
      simp only [hr] at h
      injection h with h2
      exact ⟨m, h2.symm, Or.inr rfl⟩
    | error e2 =>
      simp only [hr] at h
      exact Except.noConfusion h

/-- Each element on the right of a `Forall₂` is related to some element on
the left. -/
theorem ta_forall2_mem_right {α β : Type} {R : α → β → Prop} {l1 : List α} {l2 : List β}
    (h : List.Forall₂ R l1 l2) : ∀ m ∈ l2, ∃ a ∈ l1, R a m := by
  induction h with
  | nil => intro m hm; exact absurd hm (List.not_mem_nil m)
  | cons hR hrest ih =>
    intro m hm
    rcases List.mem_cons.mp hm with h1 | h1
    · subst h1
      exact ⟨_, List.mem_cons_self _ _, hR⟩
    · obtain ⟨a, ha, hrel⟩ := ih m h1
      exact ⟨a, List.mem_cons_of_mem _ ha, hrel⟩

/-- A single superstep never puts a system message into the history, as long
as both LLM clients return assistant messages. -/
theorem ta_step_no_system {bound raw : List TA.Message → Except String TA.Message}
    {reg : String → Option TA.ToolImpl}
    (hb : ∀ l m, bound l = Except.ok m → m.role = TA.Role.assistant)
    (hr : ∀ l m, raw l = Except.ok m → m.role = TA.Role.assistant)
    {x y : TA.Node × TA.LoopState} (h : TA.step bound raw reg x = Except.ok y)
    (hx : ∀ m ∈ x.2.messages, m.role ≠ TA.Role.system) :
    ∀ m ∈ y.2.messages, m.role ≠ TA.Role.system := by
  obtain ⟨nd, s⟩ := x
  cases nd with
  | llm_call =>
    simp only [TA.step] at h
    cases hc : TA.llm_call bound raw s with
    | error e => rw [hc] at h; exact Except.noConfusion h
    | ok u =>
      rw [hc] at h
      simp only [Except.ok.injEq] at h
      subst h
      obtain ⟨m0, hu, hbr⟩ := ta_llm_call_ok hc
      subst hu
      intro m hm
      simp only [TA.applyUpdate] at hm
      rcases List.mem_append.mp hm with h1 | h1
      · exact hx m h1
      · have hm0 : m = m0 := by simpa using h1
        subst hm0
        have hrole : m.role = TA.Role.assistant := by
          rcases hbr with hh | hh
          · exact hb _ m hh
          · exact hr _ m hh
        rw [hrole]
        intro hfalse
        exact TA.Role.noConfusion hfalse
  | tool_node =>
    simp only [TA.step] at h
    cases hc : TA.tool_node reg s with
    | error e => rw [hc] at h; exact Except.noConfusion h
    | ok u =>
      rw [hc] at h
      simp only [Except.ok.injEq] at h
      subst h
      unfold TA.tool_node at hc
      cases hl : s.messages.getLast? with
      | none =>
        simp only [hl] at hc
        exact Except.noConfusion hc
      | some last =>
        simp only [hl] at hc
        cases he : TA.execAll reg last.tool_calls with
        | error e =>
          simp only [he] at hc
          exact Except.noConfusion hc
        | ok rs =>
          simp only [he] at hc
          injection hc with hc2
          subst hc2
          intro m hm
          simp only [TA.applyUpdate] at hm
          rcases List.mem_append.mp hm with h1 | h1
          · exact hx m h1
          · obtain ⟨tc, -, hrel⟩ := ta_forall2_mem_right (ta_execAll_ok_forall2 he) m h1
            have hrole : m.role = TA.Role.tool := (ta_execOne_ok_shape hrel).1
            rw [hrole]
            intro hfalse
            exact TA.Role.noConfusion hfalse
  | halted =>
    simp only [TA.step, Except.ok.injEq] at h
    subst h
    exact hx

/-- Iterating the loop never puts a system message into the history. -/
theorem ta_iterate_no_system {bound raw : List TA.Message → Except String TA.Message}
    {reg : String → Option TA.ToolImpl}
    (hb : ∀ l m, bound l = Except.ok m → m.role = TA.Role.assistant)
    (hr : ∀ l m, raw l = Except.ok m → m.role = TA.Role.assistant) :
    ∀ (n : Nat) {x y : TA.Node × TA.LoopState},
      TA.iterate bound raw reg n x = Except.ok y →
      (∀ m ∈ x.2.messages, m.role ≠ TA.Role.system) →
      ∀ m ∈ y.2.messages, m.role ≠ TA.Role.system
  | 0, x, y, h, hx => by
    injection h with h2
    subst h2
    exact hx
  | n + 1, x, y, h, hx => by
    rw [ta_iterate_succ] at h
    cases hs : TA.step bound raw reg x with
    | error e => rw [hs] at h; exact Except.noConfusion h
    | ok z =>
      rw [hs] at h
      exact ta_iterate_no_system hb hr n h (ta_step_no_system hb hr hs hx)

/-- Mapping a function that fixes every element of a list is the
identity. -/
theorem db_map_id {f : DB.Row → DB.Row} :
    ∀ {l : List DB.Row}, (∀ x ∈ l, f x = x) → l.map f = l
  | [], _ => rfl
  | a :: t, h => by
    simp only [List.map_cons]
    rw [h a (List.mem_cons_self a t), db_map_id (fun x hx => h x (List.mem_cons_of_mem a hx))]

/-- Drafter's `should_continue` reduces to an existence check over the whole
history: the direction of the scan and the empty-history guard do not
matter. -/
theorem dr_should_continue_eq (msgs : List Drafter.DMessage) :
    Drafter.should_continue msgs =
      (if msgs.any Drafter.isSaveConfirmation then "end" else "continue") := by
  cases msgs with
  | nil => rfl
  | cons a t =>
    unfold Drafter.should_continue
    simp only [List.isEmpty_cons, List.any_reverse, Bool.false_eq_true, if_false]

/-- The graph leaves the `tools` node for `END` exactly when some message of
the history is a save confirmation. -/
theorem dr_route_iff (msgs : List Drafter.DMessage) :
    Drafter.routeAfterTools msgs = some Drafter.DNode.halt ↔
      msgs.any Drafter.isSaveConfirmation = true := by
  unfold Drafter.routeAfterTools
  rw [dr_should_continue_eq]
  cases hany : msgs.any Drafter.isSaveConfirmation with
  | true => rw [if_pos rfl]; decide
  | false =>
    rw [if_neg (by simp)]
    constructor
    · intro hcontra
      exact absurd hcontra (by decide)
    · intro hcontra
      exact Bool.noConfusion hcontra

/-! ## Claims -/

/-- C1 (counterexample): the Tool Executor is claimed never to raise and to
convert handler exceptions into error-payload result messages; but in an
environment where a handler raises on `invoke` and the direct fallback call
also raises, `tool_node` propagates the exception and returns no results at
all. -/
theorem c1_counterexample :
    TA.tool_node (TA.TOOLS_BY_NAME boomImpls) boomState = Except.error "TypeError" := rfl

/-- C1 (amended): for every batch of requests taken from the last assistant
message, provided each request either names an unregistered tool or has a
handler that succeeds on `invoke` or on the direct fallback call, the
executor returns a sequence of tool-result messages of length exactly equal
to the request sequence, in the same order, without raising; moreover a
handler exception from `invoke` is caught and answered by retrying the
handler with a direct call — whose value, not an error payload, becomes the
observation. -/
theorem c1_executor_batch (reg : String → Option TA.ToolImpl) (st : TA.LoopState)
    (last : TA.Message) (hlast : st.messages.getLast? = some last)
    (hok : ∀ tc ∈ last.tool_calls, (TA.execOne reg tc).isOk = true) :
    (TA.tool_node reg st).isOk = true ∧
    (∀ rs, TA.tool_node reg st = Except.ok { messages := rs, llm_calls := none } →
      rs.length = last.tool_calls.length ∧
      List.Forall₂ (fun tc mm =>
        TA.execOne reg tc = Except.ok mm ∧
        mm.role = TA.Role.tool ∧
        mm.tool_call_id = some tc.id) last.tool_calls rs) ∧
    (∀ (t : TA.ToolImpl) (tc : TA.ToolCall) (e obs : String),
      reg tc.name = some t →
      t.invoke tc.args = Except.error e →
      t.call tc.args = Except.ok obs →
      TA.execOne reg tc = Except.ok (TA.mkToolMessage obs tc.id)) := by
  obtain ⟨rs0, hrs0⟩ := ta_execAll_ok_exists hok
  refine ⟨?_, ?_, ?_⟩
  · simp only [TA.tool_node, hlast, hrs0]
    rfl
  · intro rs hrs
    unfold TA.tool_node at hrs
    simp only [hlast, hrs0] at hrs
    injection hrs with hrs2
    have hrseq : rs0 = rs := congrArg TA.Update.messages hrs2
    subst hrseq
    have hf := ta_execAll_ok_forall2 hrs0
    constructor
    · exact (List.Forall₂.length_eq hf).symm
    · refine List.Forall₂.imp ?_ hf
      intro tc mm hrel
      exact ⟨hrel, (ta_execOne_ok_shape hrel).1, (ta_execOne_ok_shape hrel).2⟩
  · intro t tc e obs hreg hinv hcall
    unfold TA.execOne
    simp only [hreg, hinv, hcall]

/-- C1 witness: the amended statement exercised on a concrete batch with one
registered tool (whose `invoke` raises but whose direct call succeeds) and
one unregistered name. -/
theorem c1_executor_batch_witness :
    (TA.tool_node fbReg stTwo).isOk = true ∧
    ([fbRes, resTwo].length = asstTwo.tool_calls.length ∧
      List.Forall₂ (fun tc mm =>
        TA.execOne fbReg tc = Except.ok mm ∧
        mm.role = TA.Role.tool ∧
        mm.tool_call_id = some tc.id) asstTwo.tool_calls [fbRes, resTwo]) ∧
    TA.execOne fbReg loopToolCall = Except.ok (TA.mkToolMessage "direct result" loopToolCall.id) :=
  ⟨(c1_executor_batch fbReg stTwo asstTwo (by decide) (by decide)).1,
   (c1_executor_batch fbReg stTwo asstTwo (by decide) (by decide)).2.1 [fbRes, resTwo] rfl,
   (c1_executor_batch fbReg stTwo asstTwo (by decide) (by decide)).2.2
     (fbImpls "list_tasks") loopToolCall "ValidationError" "direct result"
     rfl rfl rfl⟩

/-- C2 (confirmed): a request whose name is not a key of `TOOLS_BY_NAME`
yields the structured `\x7b"error": "Unknown tool ..."\x7d` observation,
never raises past the executor boundary, and all sibling requests in the
batch are still executed and answered in order (provided the siblings
themselves do not raise uncaught, which is the failure mode settled in C1,
not an effect of the unknown name). -/
theorem c2_unknown_tool_isolated (impls : String → TA.ToolImpl) (st : TA.LoopState)
    (last : TA.Message) (hlast : st.messages.getLast? = some last)
    (hok : ∀ tc ∈ last.tool_calls, (TA.execOne (TA.TOOLS_BY_NAME impls) tc).isOk = true) :
    (TA.tool_node (TA.TOOLS_BY_NAME impls) st).isOk = true ∧
    (∀ tc : TA.ToolCall, tc.name ∉ TA.toolNames →
      TA.execOne (TA.TOOLS_BY_NAME impls) tc =
        Except.ok (TA.mkToolMessage (TA.unknownToolPayload tc.name) tc.id)) ∧
    (∀ rs, TA.tool_node (TA.TOOLS_BY_NAME impls) st = Except.ok { messages := rs, llm_calls := none } →
      rs.length = last.tool_calls.length ∧
      List.Forall₂ (fun tc mm =>
        TA.execOne (TA.TOOLS_BY_NAME impls) tc = Except.ok mm ∧
        (tc.name ∉ TA.toolNames →
          mm = TA.mkToolMessage (TA.unknownToolPayload tc.name) tc.id)) last.tool_calls rs) := by
  have hunknown : ∀ tc : TA.ToolCall, tc.name ∉ TA.toolNames →
      TA.execOne (TA.TOOLS_BY_NAME impls) tc =
        Except.ok (TA.mkToolMessage (TA.unknownToolPayload tc.name) tc.id) := by
    intro tc hname
    unfold TA.execOne TA.TOOLS_BY_NAME
    rw [if_neg hname]
  obtain ⟨rs0, hrs0⟩ := ta_execAll_ok_exists hok
  refine ⟨?_, hunknown, ?_⟩
  · simp only [TA.tool_node, hlast, hrs0]
    rfl
  · intro rs hrs
    unfold TA.tool_node at hrs
    simp only [hlast, hrs0] at hrs
    injection hrs with hrs2
    have hrseq : rs0 = rs := congrArg TA.Update.messages hrs2
    subst hrseq
    have hf := ta_execAll_ok_forall2 hrs0
    constructor
    · exact (List.Forall₂.length_eq hf).symm
    · refine List.Forall₂.imp ?_ hf
      intro tc mm hrel
      refine ⟨hrel, ?_⟩
      intro hname
      have := hunknown tc hname
      rw [this] at hrel
      injection hrel with h2
      exact h2.symm

/-- C2 witness: a concrete batch pairing the registered `list_tasks` with
the unregistered `delete_row`; the executor succeeds, the unknown request is
answered with the error payload, and both requests are answered in order. -/
theorem c2_unknown_tool_isolated_witness :
    (TA.tool_node (TA.TOOLS_BY_NAME okImpls) stTwo).isOk = true ∧
    TA.execOne (TA.TOOLS_BY_NAME okImpls) { id := "call_2", name := "delete_row", args := [] } =
      Except.ok (TA.mkToolMessage (TA.unknownToolPayload "delete_row") "call_2") ∧
    ([resOne, resTwo].length = asstTwo.tool_calls.length ∧
      List.Forall₂ (fun tc mm =>
        TA.execOne (TA.TOOLS_BY_NAME okImpls) tc = Except.ok mm ∧
        (tc.name ∉ TA.toolNames →
          mm = TA.mkToolMessage (TA.unknownToolPayload tc.name) tc.id)) asstTwo.tool_calls [resOne, resTwo]) :=
  ⟨(c2_unknown_tool_isolated okImpls stTwo asstTwo (by decide) (by decide)).1,
   (c2_unknown_tool_isolated okImpls stTwo asstTwo (by decide) (by decide)).2.1
     { id := "call_2", name := "delete_row", args := [] } (by decide),
   (c2_unknown_tool_isolated okImpls stTwo asstTwo (by decide) (by decide)).2.2
     [resOne, resTwo] rfl⟩

/-- Helper for C3: after the model node appends its single message, the
routing decision looks exactly at that message's `tool_calls`. -/
theorem ta_should_continue_after (s : TA.LoopState) (m : TA.Message) (k : Option Nat) :
    TA.should_continue (TA.applyUpdate s { messages := [m], llm_calls := k }) =
      (if m.tool_calls.isEmpty then TA.Route.toEnd else TA.Route.toNode "tool_node") := by
  unfold TA.should_continue
  have hlastm : (TA.applyUpdate s { messages := [m], llm_calls := k }).messages.getLast? = some m := by
    show (s.messages ++ [m]).getLast? = some m
    exact List.getLast?_concat s.messages
  simp only [hlastm]

/-- C3 (confirmed): when the model's reply carries zero tool-invocation
requests, the conditional edge routes to `END` and the halted loop performs
no further superstep (hence no further Model Gateway call in the turn);
when the reply carries at least one request, the loop routes to the tool
node instead. -/
theorem c3_halt_or_tools (bound raw : List TA.Message → Except String TA.Message)
    (reg : String → Option TA.ToolImpl) (s : TA.LoopState) (m : TA.Message)
    (h : bound (TA.systemMessage :: s.messages) = Except.ok m) :
    (m.tool_calls = [] →
      TA.step bound raw reg (TA.Node.llm_call, s) =
        Except.ok (TA.Node.halted,
          TA.applyUpdate s { messages := [m], llm_calls := some (s.llm_calls + 1) }) ∧
      ∀ (k : Nat) (s2 : TA.LoopState),
        TA.iterate bound raw reg k (TA.Node.halted, s2) = Except.ok (TA.Node.halted, s2)) ∧
    (m.tool_calls ≠ [] →
      TA.step bound raw reg (TA.Node.llm_call, s) =
        Except.ok (TA.Node.tool_node,
          TA.applyUpdate s { messages := [m], llm_calls := some (s.llm_calls + 1) })) := by
  have hcall : TA.llm_call bound raw s =
      Except.ok { messages := [m], llm_calls := some (s.llm_calls + 1) } := by
    unfold TA.llm_call
    simp only [h]
  constructor
  · intro hempty
    constructor
    · simp only [TA.step, hcall, ta_should_continue_after]
      rw [hempty]
      rfl
    · intro k s2
      exact ta_iterate_halted bound raw reg k s2
  · intro hnonempty
    simp only [TA.step, hcall, ta_should_continue_after]
    rw [if_neg (by simpa using hnonempty)]
    rfl

/-- C3 witness: a model reply without tool calls routes to `END` and stays
halted for three further supersteps; a reply with a tool call routes to the
tool node. -/
theorem c3_halt_or_tools_witness :
    TA.step haltBound failRaw okReg (TA.Node.llm_call, s0) =
      Except.ok (TA.Node.halted,
        TA.applyUpdate s0 { messages := [plainAssistant], llm_calls := some 1 }) ∧
    TA.iterate haltBound failRaw okReg 3 (TA.Node.halted, stTwo) =
      Except.ok (TA.Node.halted, stTwo) ∧
    TA.step loopBound failRaw okReg (TA.Node.llm_call, s0) =
      Except.ok (TA.Node.tool_node,
        TA.applyUpdate s0 { messages := [loopAssistant], llm_calls := some 1 }) :=
  ⟨((c3_halt_or_tools haltBound failRaw okReg s0 plainAssistant rfl).1 rfl).1,
   ((c3_halt_or_tools haltBound failRaw okReg s0 plainAssistant rfl).1 rfl).2 3 stTwo,
   (c3_halt_or_tools loopBound failRaw okReg s0 loopAssistant rfl).2 (by decide)⟩

/-- C4 (confirmed): after a successful tool-execution step, the loop
unconditionally transitions back to the model node — whatever the returned
observations contain, error payloads included — and the tool results are
appended to the history in request order. -/
theorem c4_tools_to_llm (bound raw : List TA.Message → Except String TA.Message)
    (reg : String → Option TA.ToolImpl) (st : TA.LoopState) (u : TA.Update)
    (h : TA.tool_node reg st = Except.ok u) :
    TA.step bound raw reg (TA.Node.tool_node, st) =
      Except.ok (TA.Node.llm_call, TA.applyUpdate st u) ∧
    (TA.applyUpdate st u).messages = st.messages ++ u.messages ∧
    ∀ last, st.messages.getLast? = some last →
      List.Forall₂ (fun tc mm => TA.execOne reg tc = Except.ok mm) last.tool_calls u.messages := by
  refine ⟨?_, rfl, ?_⟩
  · simp only [TA.step, h]
  · intro last hlast
    unfold TA.tool_node at h
    simp only [hlast] at h
    cases he : TA.execAll reg last.tool_calls with
    | error e => rw [he] at h; exact Except.noConfusion h
    | ok rs =>
      rw [he] at h
      injection h with h2
      have hmsg : rs = u.messages := congrArg TA.Update.messages h2
      exact hmsg ▸ ta_execAll_ok_forall2 he

/-- C4 witness: a concrete batch containing an unknown-tool error payload
still transitions back to the model node, with both observations appended
in request order. -/
theorem c4_tools_to_llm_witness :
    TA.step haltBound failRaw okReg (TA.Node.tool_node, stTwo) =
      Except.ok (TA.Node.llm_call,
        TA.applyUpdate stTwo { messages := [resOne, resTwo], llm_calls := none }) ∧
    (TA.applyUpdate stTwo { messages := [resOne, resTwo], llm_calls := none }).messages =
      stTwo.messages ++ [resOne, resTwo] ∧
    List.Forall₂ (fun tc mm => TA.execOne okReg tc = Except.ok mm)
      asstTwo.tool_calls [resOne, resTwo] := by
  have h := c4_tools_to_llm haltBound failRaw okReg stTwo
    { messages := [resOne, resTwo], llm_calls := none } rfl
  exact ⟨h.1, h.2.1, h.2.2 asstTwo (by decide)⟩

/-- C5 (counterexample): the claim says a failing generation call makes the
gateway fail and propagate the error with no automatic retry; but with a
tool-bound client that raises and a raw client that answers, `llm_call`
succeeds — the failure is silently retried against the raw model and the
loop continues and halts normally. -/
theorem c5_counterexample :
    TA.llm_call failBound haltBound s0 =
      Except.ok { messages := [plainAssistant], llm_calls := some 1 } ∧
    TA.step failBound haltBound (TA.TOOLS_BY_NAME okImpls) (TA.Node.llm_call, s0) =
      Except.ok (TA.Node.halted,
        TA.applyUpdate s0 { messages := [plainAssistant], llm_calls := some 1 }) :=
  ⟨rfl, rfl⟩

/-- C5 (amended): when the tool-bound generation call fails, `llm_call`
retries exactly once with the raw model and returns its reply; only when
that fallback also fails does the exception propagate to the Loop
Controller, aborting the superstep with the error (there is no dedicated
`GenerationError` wrapper and no further retry). -/
theorem c5_generation_fallback (bound raw : List TA.Message → Except String TA.Message)
    (s : TA.LoopState) :
    (∀ (e : String) (m : TA.Message),
      bound (TA.systemMessage :: s.messages) = Except.error e →
      raw (TA.systemMessage :: s.messages) = Except.ok m →
      TA.llm_call bound raw s =
        Except.ok { messages := [m], llm_calls := some (s.llm_calls + 1) }) ∧
    (∀ (e e2 : String),
      bound (TA.systemMessage :: s.messages) = Except.error e →
      raw (TA.systemMessage :: s.messages) = Except.error e2 →
      TA.llm_call bound raw s = Except.error e2 ∧
      ∀ reg, TA.step bound raw reg (TA.Node.llm_call, s) = Except.error e2) := by
  constructor
  · intro e m hb hr
    unfold TA.llm_call
    simp only [hb, hr]
  · intro e e2 hb hr
    have hcall : TA.llm_call bound raw s = Except.error e2 := by
      unfold TA.llm_call
      simp only [hb, hr]
    refine ⟨hcall, ?_⟩
    intro reg
    simp only [TA.step, hcall]

/-- C5 witness: the fallback succeeding on one pair of clients, and the
error propagating when both clients fail. -/
theorem c5_generation_fallback_witness :
    TA.llm_call failBound haltBound stTwo =
      Except.ok { messages := [plainAssistant], llm_calls := some 2 } ∧
    TA.llm_call failBound failRaw stTwo = Except.error "DeadlineExceeded" ∧
    TA.step failBound failRaw (TA.TOOLS_BY_NAME okImpls) (TA.Node.llm_call, stTwo) =
      Except.error "DeadlineExceeded" :=
  ⟨(c5_generation_fallback failBound haltBound stTwo).1 "ServiceUnavailable" plainAssistant rfl rfl,
   ((c5_generation_fallback failBound failRaw stTwo).2 "ServiceUnavailable" "DeadlineExceeded" rfl rfl).1,
   ((c5_generation_fallback failBound failRaw stTwo).2 "ServiceUnavailable" "DeadlineExceeded" rfl rfl).2
     (TA.TOOLS_BY_NAME okImpls)⟩

/-- Helper for C6: the model step of the tool-call-happy run always routes
to the tool node and bumps the counter. -/
theorem ta_loop_step_model (s : TA.LoopState) :
    TA.step loopBound loopBound okReg (TA.Node.llm_call, s) =
      Except.ok (TA.Node.tool_node,
        { messages := s.messages ++ [loopAssistant], llm_calls := s.llm_calls + 1 }) := by
  have hcall : TA.llm_call loopBound loopBound s =
      Except.ok { messages := [loopAssistant], llm_calls := some (s.llm_calls + 1) } := rfl
  simp only [TA.step, hcall, ta_should_continue_after]
  rfl

/-- Helper for C6: the tool step of the tool-call-happy run returns to the
model node and leaves the counter unchanged. -/
theorem ta_loop_step_tools (s : TA.LoopState)
    (hlast : s.messages.getLast? = some loopAssistant) :
    TA.step loopBound loopBound okReg (TA.Node.tool_node, s) =
      Except.ok (TA.Node.llm_call,
        { messages := s.messages ++ [loopResult], llm_calls := s.llm_calls }) := by
  have htool : TA.tool_node okReg s = Except.ok { messages := [loopResult], llm_calls := none } := by
    unfold TA.tool_node
    simp only [hlast]
    rfl
  simp only [TA.step, htool]
  rfl

/-- Helper for C6: one full model/tool round of the tool-call-happy run. -/
theorem ta_loop_two_steps (s : TA.LoopState) :
    TA.iterate loopBound loopBound okReg 2 (TA.Node.llm_call, s) =
      Except.ok (TA.Node.llm_call,
        { messages := (s.messages ++ [loopAssistant]) ++ [loopResult],
          llm_calls := s.llm_calls + 1 }) := by
  have h2 := ta_loop_step_tools
    { messages := s.messages ++ [loopAssistant], llm_calls := s.llm_calls + 1 }
    (by exact List.getLast?_concat s.messages)
  show TA.iterate loopBound loopBound okReg (0 + 1 + 1) (TA.Node.llm_call, s) = _
  rw [ta_iterate_succ]
  simp only [ta_loop_step_model s]
  rw [ta_iterate_succ]
  simp only [h2]
  rfl

/-- Helper for C6: after `n` full rounds the loop is still at the model
node, having made `n` Model Gateway calls. -/
theorem ta_loop_run (n : Nat) : ∀ s : TA.LoopState,
    TA.iterate loopBound loopBound okReg (2 * n) (TA.Node.llm_call, s) =
      Except.ok (TA.Node.llm_call,
        { messages := s.messages ++ rep n, llm_calls := s.llm_calls + n }) := by
  induction n with
  | zero =>
    intro s
    show Except.ok _ = _
    simp [rep]
  | succ k ih =>
    intro s
    have hadd : 2 * (k + 1) = 2 * k + 2 := by ring
    rw [hadd, ta_iterate_add loopBound loopBound okReg (2 * k) 2]
    simp only [ta_loop_two_steps s]
    rw [ih]
    simp only [rep, Except.ok.injEq, Prod.mk.injEq, TA.LoopState.mk.injEq]
    refine ⟨trivial, ?_, ?_⟩
    · simp [List.append_assoc]
    · omega

/-- C6 (confirmed): the routing decision never consults the `llm_calls`
counter, and for every bound `n` there is a model-response sequence (a
model that requests a tool call on every turn) under which the loop is
still running after more than `n` Model Gateway calls. -/
theorem c6_no_iteration_cap :
    (∀ (msgs : List TA.Message) (a b : Nat),
      TA.should_continue { messages := msgs, llm_calls := a } =
        TA.should_continue { messages := msgs, llm_calls := b }) ∧
    (∀ n : Nat, ∃ s2 : TA.LoopState,
      TA.iterate loopBound loopBound okReg (2 * (n + 1)) (TA.Node.llm_call, s0) =
        Except.ok (TA.Node.llm_call, s2) ∧ n < s2.llm_calls) := by
  constructor
  · intro msgs a b
    rfl
  · intro n
    refine ⟨{ messages := s0.messages ++ rep (n + 1), llm_calls := s0.llm_calls + (n + 1) },
      ta_loop_run (n + 1) s0, ?_⟩
    show n < 0 + (n + 1)
    omega

/-- Helper for C7: in a batch whose invocation ids are pairwise distinct, a
tag equal to one request's id matches exactly one request. -/
theorem ta_countP_unique (a : String) :
    ∀ (calls : List TA.ToolCall),
      (calls.map TA.ToolCall.id).Nodup → (∃ tc0 ∈ calls, tc0.id = a) →
      calls.countP (fun tc => decide (some a = some tc.id)) = 1 := by
  intro calls
  induction calls with
  | nil =>
    intro _ h
    obtain ⟨tc0, h0, -⟩ := h
    exact absurd h0 (List.not_mem_nil tc0)
  | cons c rest ih =>
    intro hn hex
    simp only [List.map_cons, List.nodup_cons] at hn
    obtain ⟨hnotin, hrest⟩ := hn
    rw [List.countP_cons]
    obtain ⟨tc0, h0, ha⟩ := hex
    rcases List.mem_cons.mp h0 with h1 | h1
    · subst h1
      have hz : rest.countP (fun tc => decide (some a = some tc.id)) = 0 := by
        rw [List.countP_eq_zero]
        intro tc htc hP
        have haid : a = tc.id := by simpa using hP
        have hmem : tc.id ∈ rest.map TA.ToolCall.id := List.mem_map_of_mem TA.ToolCall.id htc
        rw [← haid, ← ha] at hmem
        exact hnotin hmem
      have hcond : ((fun tc => decide (some a = some tc.id)) tc0 = true) := by
        simp [ha]
      rw [hz, if_pos hcond]
    · have hamem : a ∈ rest.map TA.ToolCall.id := ha ▸ List.mem_map_of_mem TA.ToolCall.id h1
      have hne : ¬ (c.id = a) := fun hEq => hnotin (hEq ▸ hamem)
      have hcond : ¬ ((fun tc => decide (some a = some tc.id)) c = true) := by
        simp only [decide_eq_true_eq, Option.some.injEq]
        intro hEq
        exact hne hEq.symm
      rw [ih hrest ⟨tc0, h1, ha⟩, if_neg hcond]

/-- C7 (confirmed): every superstep only extends the history (the prior
history is a prefix of the new one), and each tool-result message produced
by `tool_node` is tagged with the id of exactly one request of the
preceding assistant message, provided that message's invocation ids are
pairwise distinct. -/
theorem c7_history_append_only :
    (∀ (bound raw : List TA.Message → Except String TA.Message)
       (reg : String → Option TA.ToolImpl) (x : TA.Node × TA.LoopState)
       (n2 : TA.Node) (s2 : TA.LoopState),
      TA.step bound raw reg x = Except.ok (n2, s2) → x.2.messages <+: s2.messages) ∧
    (∀ (reg : String → Option TA.ToolImpl) (st : TA.LoopState) (last : TA.Message)
       (u : TA.Update),
      st.messages.getLast? = some last →
      (last.tool_calls.map TA.ToolCall.id).Nodup →
      TA.tool_node reg st = Except.ok u →
      ∀ m ∈ u.messages,
        m.role = TA.Role.tool ∧
        last.tool_calls.countP (fun tc => decide (m.tool_call_id = some tc.id)) = 1) := by
  constructor
  · intro bound raw reg x n2 s2 h
    exact ta_step_extends h
  · intro reg st last u hlast hn htool
    unfold TA.tool_node at htool
    simp only [hlast] at htool
    cases he : TA.execAll reg last.tool_calls with
    | error e => rw [he] at htool; exact Except.noConfusion htool
    | ok rs =>
      rw [he] at htool
      injection htool with h2
      have hmsg : rs = u.messages := congrArg TA.Update.messages h2
      intro m hm
      rw [← hmsg] at hm
      obtain ⟨tc0, h0, hrel⟩ := ta_forall2_mem_right (ta_execAll_ok_forall2 he) m hm
      have hshape := ta_execOne_ok_shape hrel
      refine ⟨hshape.1, ?_⟩
      simp only [hshape.2]
      exact ta_countP_unique tc0.id last.tool_calls hn ⟨tc0, h0, rfl⟩

/-- C7 witness: the prefix property on a concrete tool step and the
exactly-one-matching-request property for the unknown-tool observation of
the concrete batch. -/
theorem c7_history_append_only_witness :
    stTwo.messages <+:
      (TA.applyUpdate stTwo { messages := [resOne, resTwo], llm_calls := none }).messages ∧
    (resTwo.role = TA.Role.tool ∧
      asstTwo.tool_calls.countP (fun tc => decide (resTwo.tool_call_id = some tc.id)) = 1) :=
  ⟨c7_history_append_only.1 haltBound failRaw okReg (TA.Node.tool_node, stTwo)
      TA.Node.llm_call (TA.applyUpdate stTwo { messages := [resOne, resTwo], llm_calls := none }) rfl,
   c7_history_append_only.2 okReg stTwo asstTwo { messages := [resOne, resTwo], llm_calls := none }
      (by decide) (by decide) rfl resTwo (by decide)⟩

/-- C8 (confirmed): the fixed system message is prepended to the list sent
to the external client but the returned delta appends only the new
assistant message, leaving the stored history intact; consequently a
history free of system messages stays free of them over any number of
supersteps, as both clients return assistant messages. -/
theorem c8_system_not_stored :
    (∀ (bound raw : List TA.Message → Except String TA.Message) (s : TA.LoopState)
       (m : TA.Message),
      bound (TA.systemMessage :: s.messages) = Except.ok m →
      TA.llm_call bound raw s =
        Except.ok { messages := [m], llm_calls := some (s.llm_calls + 1) } ∧
      (TA.applyUpdate s { messages := [m], llm_calls := some (s.llm_calls + 1) }).messages =
        s.messages ++ [m]) ∧
    (∀ (bound raw : List TA.Message → Except String TA.Message)
       (reg : String → Option TA.ToolImpl),
      (∀ l m, bound l = Except.ok m → m.role = TA.Role.assistant) →
      (∀ l m, raw l = Except.ok m → m.role = TA.Role.assistant) →
      ∀ (n : Nat) (x y : TA.Node × TA.LoopState),
        TA.iterate bound raw reg n x = Except.ok y →
        (∀ m ∈ x.2.messages, m.role ≠ TA.Role.system) →
        ∀ m ∈ y.2.messages, m.role ≠ TA.Role.system) := by
  constructor
  · intro bound raw s m h
    refine ⟨?_, rfl⟩
    unfold TA.llm_call
    simp only [h]
  · intro bound raw reg hb hr n x y hit hx
    exact ta_iterate_no_system hb hr n hit hx

/-- C8 witness: a concrete model step appends exactly the assistant reply,
and after a concrete superstep the history still holds no system message. -/
theorem c8_system_not_stored_witness :
    (TA.llm_call haltBound failRaw s0 =
       Except.ok { messages := [plainAssistant], llm_calls := some 1 } ∧
     (TA.applyUpdate s0 { messages := [plainAssistant], llm_calls := some 1 }).messages =
       s0.messages ++ [plainAssistant]) ∧
    plainAssistant.role ≠ TA.Role.system := by
  constructor
  · exact c8_system_not_stored.1 haltBound failRaw s0 plainAssistant rfl
  · have hres := c8_system_not_stored.2 haltBound haltBound okReg
      (by
        intro l m h
        simp only [haltBound] at h
        injection h with h2
        rw [← h2]
        rfl)
      (by
        intro l m h
        simp only [haltBound] at h
        injection h with h2
        rw [← h2]
        rfl)
      1 (TA.Node.llm_call, s0)
      (TA.Node.halted, TA.applyUpdate s0 { messages := [plainAssistant], llm_calls := some 1 })
      rfl (by decide)
    exact hres plainAssistant (by decide)

/-- C9 (confirmed): for a `task_id` matching no row, `complete_task` and
`delete_task` return `updated`/`deleted` = false with a "Task ... not
found." message and leave the table unchanged; for a `task_id` matching
exactly one row (the primary-key situation), the flag is true and exactly
that row is completed, respectively deleted, all other rows unchanged and
in order. -/
theorem c9_complete_delete (table : List DB.Row) (tid : Int) (now : String) :
    ((∀ r ∈ table, r.id ≠ tid) →
      DB.completeTaskTool table tid now = (table, DB.completeTaskJson tid false) ∧
      DB.deleteTaskTool table tid = (table, DB.deleteTaskJson tid false)) ∧
    (∀ (r : DB.Row) (pre post : List DB.Row),
      table = pre ++ r :: post → r.id = tid →
      (∀ x ∈ pre, x.id ≠ tid) → (∀ x ∈ post, x.id ≠ tid) →
      DB.completeTaskTool table tid now =
        (pre ++ { r with completed := 1, updated_at := now } :: post,
         DB.completeTaskJson tid true) ∧
      DB.deleteTaskTool table tid = (pre ++ post, DB.deleteTaskJson tid true)) := by
  constructor
  · intro h
    have hmap : table.map
        (fun r => if r.id = tid then { r with completed := 1, updated_at := now } else r) = table :=
      db_map_id (fun x hx => if_neg (h x hx))
    have hfil : table.filter (fun r => r.id = tid) = [] :=
      List.filter_eq_nil_iff.mpr (fun x hx => by simpa using h x hx)
    have hkeep : table.filter (fun r => ¬ r.id = tid) = table := by
      rw [List.filter_eq_self]
      intro x hx
      simpa using h x hx
    constructor
    · simp only [DB.completeTaskTool, DB.complete_task, hmap, hfil]
      rfl
    · simp only [DB.deleteTaskTool, DB.delete_task, hkeep, hfil]
      rfl
  · intro r pre post htab hrid hpre hpost
    subst htab
    have hmapPre : pre.map
        (fun r => if r.id = tid then { r with completed := 1, updated_at := now } else r) = pre :=
      db_map_id (fun x hx => if_neg (hpre x hx))
    have hmapPost : post.map
        (fun r => if r.id = tid then { r with completed := 1, updated_at := now } else r) = post :=
      db_map_id (fun x hx => if_neg (hpost x hx))
    have hfilPre : pre.filter (fun x => x.id = tid) = [] :=
      List.filter_eq_nil_iff.mpr (fun x hx => by simpa using hpre x hx)
    have hfilPost : post.filter (fun x => x.id = tid) = [] :=
      List.filter_eq_nil_iff.mpr (fun x hx => by simpa using hpost x hx)
    have hkeepPre : pre.filter (fun x => ¬ x.id = tid) = pre := by
      rw [List.filter_eq_self]
      intro x hx
      simpa using hpre x hx
    have hkeepPost : post.filter (fun x => ¬ x.id = tid) = post := by
      rw [List.filter_eq_self]
      intro x hx
      simpa using hpost x hx
    have hrpos : (decide (r.id = tid)) = true := by simpa using hrid
    have hrneg : (decide (¬ r.id = tid)) = false := by simpa using hrid
    constructor
    · simp only [DB.completeTaskTool, DB.complete_task, List.map_append, List.map_cons,
        List.filter_append, List.filter_cons, hrpos, if_pos hrid, hmapPre, hmapPost,
        hfilPre, hfilPost]
      rfl
    · simp only [DB.deleteTaskTool, DB.delete_task, List.filter_append, List.filter_cons,
        hrpos, hrneg, hkeepPre, hkeepPost, hfilPre, hfilPost]
      rfl

/-- C9 witness: on a concrete two-row table, id 5 is reported not found
with the table untouched, while id 2 completes, respectively deletes,
exactly the second row. -/
theorem c9_complete_delete_witness :
    (DB.completeTaskTool [row1, row2] 5 "2026-10-12T00:00:00" =
       ([row1, row2], DB.completeTaskJson 5 false) ∧
     DB.deleteTaskTool [row1, row2] 5 = ([row1, row2], DB.deleteTaskJson 5 false)) ∧
    (DB.completeTaskTool [row1, row2] 2 "2026-10-12T00:00:00" =
       ([row1] ++ { row2 with completed := 1, updated_at := "2026-10-12T00:00:00" } :: [],
        DB.completeTaskJson 2 true) ∧
     DB.deleteTaskTool [row1, row2] 2 = ([row1] ++ [], DB.deleteTaskJson 2 true)) :=
  ⟨(c9_complete_delete [row1, row2] 5 "2026-10-12T00:00:00").1 (by decide),
   (c9_complete_delete [row1, row2] 2 "2026-10-12T00:00:00").2 row2 [row1] []
     rfl (by decide) (by decide) (by decide)⟩

/-- C10 (counterexample): the claim says the workflow never ends due to an
update result alone; but updating the document to a text containing
"saved" makes the update confirmation contain both "saved" and "document",
so the graph routes from `tools` to `END` on a history whose only
tool-result message is an update confirmation. -/
theorem c10_counterexample :
    Drafter.routeAfterTools
      [{ role := Drafter.DRole.tool, content := Drafter.updateMessage "saved" }] =
      some Drafter.DNode.halt ∧
    strContains (lowerStr (Drafter.updateMessage "saved")) "saved" = true :=
  ⟨rfl, rfl⟩

/-- C10 (amended): the Drafter graph halts after a tools step iff some
tool-result message anywhere in the history contains both "saved" and
"document" case-insensitively; the save tool's success message always
contains both, while the update confirmation contains "document" always and
contains "saved" exactly when the updated content brings it in — so the
workflow ends after the first successful save, but can also end due to an
update result alone when the document text contains "saved".  A non-tool
message never triggers the halt. -/
theorem c10_save_detection :
    (∀ msgs : List Drafter.DMessage,
      Drafter.routeAfterTools msgs = some Drafter.DNode.halt ↔
        msgs.any Drafter.isSaveConfirmation = true) ∧
    Drafter.isSaveConfirmation
      { role := Drafter.DRole.tool, content := Drafter.saveSuccessMessage "notes" } = true ∧
    Drafter.isSaveConfirmation
      { role := Drafter.DRole.tool, content := Drafter.updateMessage "hello world" } = false ∧
    Drafter.isSaveConfirmation
      { role := Drafter.DRole.tool, content := Drafter.updateMessage "all work saved for launch" } = true ∧
    Drafter.isSaveConfirmation
      { role := Drafter.DRole.ai, content := Drafter.saveSuccessMessage "notes" } = false :=
  ⟨dr_route_iff, rfl, rfl, rfl, rfl⟩
